import Mathlib

/-!
Shallow embedding of `src/app.js` (adaptive multiple-choice quiz session
engine).  JS numbers are embedded as `ℚ` where real-valued (weights,
`Math.random()` draws) and as `Int`/`Nat` where integral (indices, counts);
each call site of `Math.random()` reads one value from an explicit stream
passed in as a parameter.
-/

namespace CertPrep

/-- `function clamp(n, min, max) { return Math.max(min, Math.min(max, n)); }` -/
def clamp (n lo hi : ℚ) : ℚ := max lo (min hi n)

/-- `function clampInt(n, min, max)`; `Math.trunc` is the identity here
because every call site passes integer values. -/
def clampInt (n lo hi : Int) : Int := max lo (min hi n)

/-- JS `Array.prototype.findIndex`: index of the first element satisfying
`p`, and `-1` when there is none (`List.findIdx` returns `l.length` in that
case, which the bound check converts to `-1`). -/
def jsFindIndex (p : α → Bool) (l : List α) : Int :=
  if l.findIdx p < l.length then (l.findIdx p : Int) else -1

/-- JS indexing `l[i]` with a possibly negative index: `undefined` (`none`)
outside the array. -/
def jsIndex (l : List α) (i : Int) : Option α :=
  if 0 ≤ i then l.get? i.toNat else none

/-- One destructuring swap `[a[i], a[j]] = [a[j], a[i]]`; identity when out
of bounds (every call site of the shuffle loop is in bounds). -/
def listSwap (l : List α) (i j : Nat) : List α :=
  if h : i < l.length ∧ j < l.length then
    (l.set i (l.get ⟨j, h.2⟩)).set j (l.get ⟨i, h.1⟩)
  else l

/-- The Fisher-Yates loop of `shuffle`: `for (i = len - 1; i > 0; i--)`.
`rand i % (i + 1)` embeds `Math.floor(Math.random() * (i + 1))`, a uniform
draw from `0..i`; `rand` is the stream of per-iteration draws. -/
def fyGo (rand : Nat → Nat) : List α → Nat → List α
  | a, 0 => a
  | a, i + 1 => fyGo rand (listSwap a (i + 1) (rand (i + 1) % (i + 2))) i

/-- `function shuffle(arr)`: copies the input (`arr.slice()`) and runs the
Fisher-Yates loop from the last index down to `1`. -/
def shuffle (rand : Nat → Nat) (arr : List α) : List α :=
  fyGo rand arr (arr.length - 1)

/-- `Number(weightFn(it)) || 1`: a non-numeric result (`NaN`, embedded as
`none`) and the falsy number `0` both coerce to `1`. -/
def jsNumOr1 : Option ℚ → ℚ
  | none => 1
  | some x => if x = 0 then 1 else x

/-- The per-item weight `Math.max(0.0001, Number(weightFn(it)) || 1)`. -/
def effWeight (weightFn : α → Option ℚ) (it : α) : ℚ :=
  max (1 / 10000) (jsNumOr1 (weightFn it))

/-- The subtraction loop of `weightedPick`:
`r -= weights[i]; if (r <= 0) return items[i];` over item/weight pairs;
`none` when the loop falls through without triggering. -/
def wpLoop : List (α × ℚ) → ℚ → Option α
  | [], _ => none
  | (x, w) :: rest, r => if r - w ≤ 0 then some x else wpLoop rest (r - w)

/-- `function weightedPick(items, weightFn)`; `r` is the `Math.random()`
draw.  When the loop falls through, JS returns `items[items.length - 1]`,
which is `undefined` (`none`) exactly when `items` is empty. -/
def weightedPick (items : List α) (weightFn : α → Option ℚ) (r : ℚ) : Option α :=
  let weights := items.map (effWeight weightFn)
  match wpLoop (items.zip weights) (r * weights.sum) with
  | some x => some x
  | none => items.getLast?

/-- A question record of the static bank (`questions.js`, external data;
only the fields `app.js` reads are embedded).  `answerIndex` is an `Int`
because JS `findIndex` can produce `-1`. -/
structure Question where
  id : String
  category : String
  difficulty : Nat
  question : String
  choices : List String
  answerIndex : Int
  explanation : String
deriving DecidableEq, Repr

/-- `function shuffleQuestionChoices(q)`: pair each choice text with its
original index (`{text, idx}`), shuffle the pairs, take the texts in the new
order, and re-locate the correct answer by its original index. -/
def shuffleQuestionChoices (rand : Nat → Nat) (q : Question) : Question :=
  let indexed := q.choices.enum.map (fun p => (p.2, p.1))
  let shuffled := shuffle rand indexed
  let newChoices := shuffled.map (fun x => x.1)
  let newAnswerIndex := jsFindIndex (fun x => (x.2 : Int) == q.answerIndex) shuffled
  { q with choices := newChoices, answerIndex := newAnswerIndex }

/-- A per-category tally `{correct, total}`. -/
structure CatStat where
  correct : Nat
  total : Nat
deriving DecidableEq, Repr

/-- `stats.perCategory`: a JS object keyed by category, embedded as an
association list in insertion order. -/
abbrev PerCategory := List (String × CatStat)

/-- `const DEFAULT_BASELINE = {...}` from `app.js`. -/
def DEFAULT_BASELINE : PerCategory :=
  [("privacy_security", ⟨19, 22⟩), ("network", ⟨12, 14⟩),
   ("setup_backup_restore", ⟨14, 16⟩), ("apple_account_icloud", ⟨5, 7⟩)]

/-- `stats.best`: `{score, total}`. -/
structure Best where
  score : Int
  total : Int
deriving DecidableEq, Repr

/-- A history record `{ts, score, total, mode, focus}` pushed by
`renderResults`. -/
structure Attempt where
  ts : Nat
  score : Int
  total : Int
  mode : String
  focus : String
deriving DecidableEq, Repr

/-- The persisted stats blob `{best, history, perCategory}` (the well-typed
shape used by the session engine; robustness of loading arbitrary persisted
values is modelled separately on `JsValue`). -/
structure Stats where
  best : Option Best
  history : List Attempt
  perCategory : PerCategory
deriving DecidableEq, Repr

/-- The weight map computed once per build from `stats.perCategory`:
`ratio = v.total > 0 ? v.correct / v.total : 0.5` and
`weights[cat] = clamp(1.8 - ratio, 0.6, 1.6)`. -/
def weaknessWeights (pc : PerCategory) : List (String × ℚ) :=
  pc.map (fun p =>
    (p.1, clamp (18 / 10 -
      (if p.2.total > 0 then (p.2.correct : ℚ) / (p.2.total : ℚ) else 1 / 2))
      (6 / 10) (16 / 10)))

/-- The candidate pool of `buildExamQuestions`: the full bank for `"smart"`
and `"all"`, otherwise the focused category, widened back to the full bank
when the focused pool is smaller than `count`. -/
def examPool (bank : List Question) (count : Int) (focus : String) : List Question :=
  let pool := if focus != "smart" && focus != "all"
    then bank.filter (fun q => q.category == focus) else bank
  if (pool.length : Int) < count then bank else pool

/-- The weight callback passed to `weightedPick`:
`focus === "smart" ? weights[item.category] ?? 1 : 1` (always numeric). -/
def buildWeightFn (focus : String) (weights : List (String × ℚ)) :
    Question → Option ℚ :=
  fun item => if focus == "smart"
    then some ((weights.lookup item.category).getD 1) else some 1

/-- `pool.filter(q => !usedIds.has(q.id))`. -/
def candidatesOf (pool : List Question) (used : List String) : List Question :=
  pool.filter (fun q => !(used.contains q.id))

/-- `const attemptsLimit = 5000`. -/
def attemptsLimit : Nat := 5000

/-- The draw loop of `buildExamQuestions`:
`while (picked.length < count && attempts < attemptsLimit)`.  `fuel` is the
number of attempts still allowed (`attemptsLimit - attempts`), `attempts`
indexes the `Math.random()` stream `rp`, and `picked`/`used` are the
accumulators (`usedIds.add(q.id)` and `picked.push(q)` run together).  The
`none` branch of the match is unreachable: `weightedPick` returns `none`
exactly on the empty candidate list, which the `isEmpty` break already
handled. -/
def buildLoop (rp : Nat → ℚ) (pool : List Question) (count : Int)
    (weightFn : Question → Option ℚ) :
    Nat → Nat → List Question → List String → List Question × List String
  | 0, _, picked, used => (picked, used)
  | fuel + 1, attempts, picked, used =>
    if (picked.length : Int) < count then
      let candidates := candidatesOf pool used
      if candidates.isEmpty then (picked, used)
      else
        match weightedPick candidates weightFn (rp attempts) with
        | none => (picked, used)
        | some q =>
          buildLoop rp pool count weightFn fuel (attempts + 1)
            (picked ++ [q]) (used ++ [q.id])
    else (picked, used)

/-- `function buildExamQuestions({count, focus, stats})` over an explicit
bank (the imported global `QUESTIONS`).  `rp` is the `Math.random()` stream
of the draw loop; `rs i` is the stream consumed by the `i`-th
`shuffleQuestionChoices` call of the final `map` (each call draws fresh
values from the global PRNG). -/
def buildExamQuestions (bank : List Question) (rp : Nat → ℚ)
    (rs : Nat → Nat → Nat) (count : Int) (focus : String) (stats : Stats) :
    List Question :=
  let pool := examPool bank count focus
  let weights := weaknessWeights stats.perCategory
  let res := buildLoop rp pool count (buildWeightFn focus weights) attemptsLimit 0 [] []
  let picked :=
    if (res.1.length : Int) < count then
      res.1 ++ (candidatesOf pool res.2).take (count - (res.1.length : Int)).toNat
    else res.1
  picked.enum.map (fun p => shuffleQuestionChoices (rs p.1) p.2)

/-- The draw-loop result of `buildExamQuestions` (named subterm of
`buildExamQuestions`, used to state lemmas about its phases). -/
def buildRes (bank : List Question) (rp : Nat → ℚ) (count : Int)
    (focus : String) (stats : Stats) : List Question × List String :=
  buildLoop rp (examPool bank count focus) count
    (buildWeightFn focus (weaknessWeights stats.perCategory)) attemptsLimit 0 [] []

/-- The picked list of `buildExamQuestions` after the fill-remainder phase
(named subterm of `buildExamQuestions`). -/
def buildPicked (bank : List Question) (rp : Nat → ℚ) (count : Int)
    (focus : String) (stats : Stats) : List Question :=
  let res := buildRes bank rp count focus stats
  if (res.1.length : Int) < count then
    res.1 ++ (candidatesOf (examPool bank count focus) res.2).take
      (count - (res.1.length : Int)).toNat
  else res.1

/-- `mode ∈ {"exam", "practice"}`, the only recognized values of the mode
control. -/
inductive Mode where
  | exam
  | practice
deriving DecidableEq, Repr

/-- `Mode` rendered back to the `state.mode` string stored in attempts. -/
def Mode.toString : Mode → String
  | .exam => "exam"
  | .practice => "practice"

/-- Which screen `#exam` currently shows: the question card
(`renderQuestion`), the results card (`renderResults`) or the review card
(`renderReview`). -/
inductive View where
  | progress
  | results
  | review
deriving DecidableEq, Repr

/-- An answer record `{id, chosenIndex, correct, category}` pushed by
`onChoose`. -/
structure Answer where
  id : String
  chosenIndex : Nat
  correct : Bool
  category : String
deriving DecidableEq, Repr

/-- The mutable `state` object of `app.js` plus the screen currently shown
(`view`, which in the browser is the DOM content of `#exam`). -/
structure Session where
  mode : Mode
  focus : String
  total : Int
  questions : List Question
  index : Nat
  answers : List Answer
  locked : Bool
  stats : Stats
  view : View
deriving DecidableEq, Repr

/-- `state.answers.reduce((acc, a) => acc + (a.correct ? 1 : 0), 0)`. -/
def correctCount (answers : List Answer) : Int :=
  answers.foldl (fun acc a => acc + (if a.correct then 1 else 0)) 0

/-- The attempt record built by `renderResults`:
`{ts: Date.now(), score: safeCorrect, total, mode, focus}` with
`safeCorrect = clampInt(correctCount, 0, total)`. -/
def mkAttempt (now : Nat) (s : Session) : Attempt :=
  { ts := now
    score := clampInt (correctCount s.answers) 0 s.total
    total := s.total
    mode := s.mode.toString
    focus := s.focus }

/-- The `state.stats.best` update of `renderResults`. -/
def updateBest (best : Option Best) (score total : Int) : Option Best :=
  match best with
  | none => some ⟨score, total⟩
  | some b =>
    if score > b.score || (score == b.score && total > b.total)
      then some ⟨score, total⟩ else some b

/-- One step of the per-category fold of `renderResults`: create the
category with zero counts when absent, then increment `total` and (when
correct) `correct`. -/
def recordAnswer (pc : PerCategory) (a : Answer) : PerCategory :=
  let pc := if (pc.lookup a.category).isNone
    then pc ++ [(a.category, ⟨0, 0⟩)] else pc
  pc.map (fun p =>
    if p.1 == a.category then
      (p.1, { correct := p.2.correct + (if a.correct then 1 else 0)
              total := p.2.total + 1 })
    else p)

/-- `for (const a of state.answers) { ... }` in `renderResults`. -/
def foldAnswers (pc : PerCategory) (answers : List Answer) : PerCategory :=
  answers.foldl recordAnswer pc

/-- The stats mutation performed by every call of `renderResults`: push the
attempt onto `history`, update `best`, fold this session's answers into
`perCategory` (then `saveStats` persists the blob — external). -/
def finalizeStats (now : Nat) (s : Session) : Stats :=
  let attempt := mkAttempt now s
  { best := updateBest s.stats.best attempt.score attempt.total
    history := s.stats.history ++ [attempt]
    perCategory := foldAnswers s.stats.perCategory s.answers }

/-- `renderResults()` as a state transition: mutate the stats and show the
results card. -/
def renderResultsStep (now : Nat) (s : Session) : Session :=
  { s with stats := finalizeStats now s, view := .results }

/-- `renderQuestion()` as a state transition: show the question card when
`state.questions[state.index]` exists, otherwise fall through to
`renderResults()`. -/
def afterNav (now : Nat) (s : Session) : Session :=
  if s.index < s.questions.length then { s with view := .progress }
  else renderResultsStep now s

/-- `state.answers.some(a => a.id === q.id)` for the current question;
`false` when there is no current question. -/
def currentAnswered (s : Session) : Bool :=
  match s.questions[s.index]? with
  | some q => s.answers.any (fun a => a.id == q.id)
  | none => false

/-- The user events the presentation layer can emit on each screen. -/
inductive Event where
  | back
  | next
  | choose (idx : Nat)
  | review
  | backToResults
deriving DecidableEq, Repr

/-- One synchronous UI event.  On the question card: `back` floors the index
at `0`; `next` is rejected in exam mode while the current question is
unanswered, otherwise increments the index (running `renderResults` when it
moves past the last question); `choose` is `onChoose`, a no-op when the
current question already has an answer.  On the results card, `review`
(`reviewBtn`) resets the index and shows the review card; on the review
card, `backToResults` re-runs `renderResults()`.  Events whose button is not
on the current screen do nothing. -/
def step (now : Nat) (s : Session) (e : Event) : Session :=
  match s.view, e with
  | .progress, .back =>
    match s.questions[s.index]? with
    | none => s
    | some _ => afterNav now { s with index := s.index - 1 }
  | .progress, .next =>
    match s.questions[s.index]? with
    | none => s
    | some q =>
      if s.mode = .exam ∧ ¬(s.answers.any (fun a => a.id == q.id)) then s
      else afterNav now { s with index := s.index + 1 }
  | .progress, .choose idx =>
    match s.questions[s.index]? with
    | none => s
    | some q =>
      if s.answers.any (fun a => a.id == q.id) then s
      else
        afterNav now
          { s with answers := s.answers ++
              [{ id := q.id, chosenIndex := idx,
                 correct := (idx : Int) == q.answerIndex,
                 category := q.category }] }
  | .results, .review => { s with index := 0, view := .review }
  | .review, .backToResults => renderResultsStep now s
  | _, _ => s

/-- `function startExam()` with the control values (`modeEl`, `countEl`,
`focusEl`) passed explicitly: build the questions, reset the cursor and the
answers, and render (which finalizes immediately when no question exists). -/
def startExam (bank : List Question) (rp : Nat → ℚ) (rs : Nat → Nat → Nat)
    (now : Nat) (mode : Mode) (count : Int) (focus : String) (stats : Stats) :
    Session :=
  afterNav now
    { mode := mode, focus := focus, total := count
      questions := buildExamQuestions bank rp rs count focus stats
      index := 0, answers := [], locked := false
      stats := stats, view := .progress }

/-- A sequence of UI events applied in order. -/
def runTrace (now : Nat) (s : Session) (es : List Event) : Session :=
  es.foldl (step now) s

/-- A JS value as produced by `JSON.parse` and mutated by `loadStats`.
Arrays carry an extra property list because JS arrays are objects and
`parsed.best ??= null` can attach properties to them. -/
inductive JsValue where
  | null
  | bool (b : Bool)
  | num (q : ℚ)
  | str (s : String)
  | arr (elems : List JsValue) (props : List (String × JsValue))
  | obj (fields : List (String × JsValue))

/-- Property read `v[k]`: `TypeError` on `null`, `undefined` (`none`) on
boxed primitives (no such own property), lookup on objects and arrays. -/
def jsGetProp : JsValue → String → Except Unit (Option JsValue)
  | .null, _ => .error ()
  | .bool _, _ => .ok none
  | .num _, _ => .ok none
  | .str _, _ => .ok none
  | .arr _ props, k => .ok (props.lookup k)
  | .obj fields, k => .ok (fields.lookup k)

/-- Upsert of a key in a JS object: overwrite in place when present, append
in insertion order when absent. -/
def setKV : List (String × JsValue) → String → JsValue →
    List (String × JsValue)
  | [], k, v => [(k, v)]
  | (k0, v0) :: rest, k, v =>
    if k0 == k then (k0, v) :: rest else (k0, v0) :: setKV rest k v

/-- Property write `v[k] = x`: `TypeError` on `null` and (in strict mode,
which ES modules are) on primitives; allowed on objects and arrays. -/
def jsSetProp : JsValue → String → JsValue → Except Unit JsValue
  | .null, _, _ => .error ()
  | .bool _, _, _ => .error ()
  | .num _, _, _ => .error ()
  | .str _, _, _ => .error ()
  | .arr es props, k, v => .ok (.arr es (setKV props k v))
  | .obj fields, k, v => .ok (.obj (setKV fields k v))

/-- Whether a JS value is exactly `null`. -/
def isNullJs : JsValue → Bool
  | .null => true
  | _ => false

/-- The value of property `k` after `v.k ??= d`, as a function of the value
it had before: the default when the property was `undefined` or `null`, the
original value otherwise. -/
def backfilledKey (orig : Option JsValue) (d : JsValue) : Option JsValue :=
  match orig with
  | none => some d
  | some x => if isNullJs x then some d else some x

/-- `v.k ??= dflt`: assign when the read yields `undefined` or `null`,
propagating `TypeError`s of the read or the write. -/
def jsNullishAssign (v : JsValue) (k : String) (dflt : JsValue) :
    Except Unit JsValue := do
  match ← jsGetProp v k with
  | none => jsSetProp v k dflt
  | some x => if isNullJs x then jsSetProp v k dflt else pure v

/-- `DEFAULT_BASELINE` as the JS value `structuredClone` copies. -/
def baselineJs : JsValue :=
  .obj (DEFAULT_BASELINE.map (fun p =>
    (p.1, .obj [("correct", .num p.2.correct), ("total", .num p.2.total)])))

/-- The seeded default
`{best: null, history: [], perCategory: structuredClone(DEFAULT_BASELINE)}`. -/
def defaultStatsJs : JsValue :=
  .obj [("best", .null), ("history", .arr [] []), ("perCategory", baselineJs)]

/-- The body of the `try` block of `loadStats`: backfill the three keys on
the parsed value (`parsed.best ??= null;` etc.), propagating any
`TypeError`. -/
def backfillStats (parsed : JsValue) : Except Unit JsValue := do
  let p1 ← jsNullishAssign parsed "best" .null
  let p2 ← jsNullishAssign p1 "history" (.arr [] [])
  jsNullishAssign p2 "perCategory" baselineJs

/-- `function loadStats()` over the persisted value (`none` when the storage
key is absent) and a parse oracle standing for the host `JSON.parse`
(`none` models a parse exception).  `!raw` is also true for the empty
string.  Any exception inside the `try` block yields the seeded default;
the function itself never throws (it is total). -/
def loadStats (parse : String → Option JsValue) (raw : Option String) :
    JsValue :=
  match raw with
  | none => defaultStatsJs
  | some s =>
    if s = "" then defaultStatsJs
    else
      match parse s with
      | none => defaultStatsJs
      | some parsed =>
        match backfillStats parsed with
        | .ok v => v
        | .error _ => defaultStatsJs

/-- Own-property lookup on objects and arrays (`none` elsewhere). -/
def kvLookup : JsValue → String → Option JsValue
  | .arr _ props, k => props.lookup k
  | .obj fields, k => fields.lookup k
  | _, _ => none

/-- Whether a JS value has own property `k` (objects and arrays only). -/
def jsHasKey (v : JsValue) (k : String) : Bool :=
  (kvLookup v k).isSome

/-- Whether property `k` is present with a non-null value. -/
def jsKeyNonNull (v : JsValue) (k : String) : Bool :=
  match kvLookup v k with
  | some .null => false
  | some _ => true
  | none => false

/-- A well-formed stats record per the data model: `best` is `null` or
`{score, total}` with numeric fields, `history` is an array, and
`perCategory` is an object every value of which is a `{correct, total}`
tally with numeric fields. -/
def wellFormedStats (v : JsValue) : Bool :=
  match v with
  | .obj fields =>
    (match fields.lookup "best" with
     | some .null => true
     | some (.obj b) =>
       (match b.lookup "score", b.lookup "total" with
        | some (.num _), some (.num _) => true
        | _, _ => false)
     | _ => false) &&
    (match fields.lookup "history" with
     | some (.arr _ _) => true
     | _ => false) &&
    (match fields.lookup "perCategory" with
     | some (.obj pc) =>
       pc.all (fun p =>
         match p.2 with
         | .obj c =>
           (match c.lookup "correct", c.lookup "total" with
            | some (.num _), some (.num _) => true
            | _, _ => false)
         | _ => false)
     | _ => false)
  | _ => false

/-- A concrete parse oracle agreeing with the host `JSON.parse` on the one
string it is asked about: parsing the JSON text below yields the object with
the lone numeric field `history`. -/
def parseHistoryNum : String → Option JsValue :=
  fun s => if s = "\x7b\"history\": 5\x7d"
    then some (.obj [("history", .num 5)]) else none

/-- Whether a JS value is an object or an array (the values on which
property assignment succeeds). -/
def objLike : JsValue → Bool
  | .arr _ _ => true
  | .obj _ => true
  | _ => false

/-- The `{text, idx}` pair list of `shuffleQuestionChoices`. -/
def indexedOf (q : Question) : List (String × Nat) :=
  q.choices.enum.map (fun p => (p.2, p.1))

/-- The shuffled pair list of `shuffleQuestionChoices`. -/
def shuffledOf (rand : Nat → Nat) (q : Question) : List (String × Nat) :=
  shuffle rand (indexedOf q)

/-- Concrete question used by witness theorems. -/
def qW1 : Question := ⟨"qw1", "network", 1, "w1", ["a", "b", "c"], 1, "e1"⟩

/-- Second concrete question used by witness theorems. -/
def qW2 : Question := ⟨"qw2", "privacy_security", 2, "w2", ["x", "y"], 0, "e2"⟩

/-- Concrete stats blob used by witness theorems. -/
def statsW : Stats := ⟨none, [], []⟩

/-- Concrete exam-mode in-progress session used by witness theorems. -/
def sessionExamW : Session :=
  ⟨.exam, "all", 2, [qW1, qW2], 0, [], false, statsW, .progress⟩

/-- Concrete practice-mode in-progress session used by witness theorems. -/
def sessionPracW : Session :=
  ⟨.practice, "all", 2, [qW1, qW2], 0, [], false, statsW, .progress⟩

/-- Concrete `Math.random()` stream (always `0`) for witness theorems. -/
def rpW : Nat → ℚ := fun _ => 0

/-- Concrete shuffle draw streams (always `0`) for witness theorems. -/
def rsW : Nat → Nat → Nat := fun _ _ => 0

/-- Replacing position `m` by `v` while pulling the old element to the front
is a permutation of pushing `v` to the front. -/
theorem cons_set_perm (v : α) : ∀ (xs : List α) (m : Nat) (h : m < xs.length),
    (xs.get ⟨m, h⟩ :: xs.set m v).Perm (v :: xs)
  | x :: xs, 0, _ => List.Perm.swap v x xs
  | x :: xs, m + 1, h =>
    ((List.Perm.swap x (xs.get ⟨m, Nat.lt_of_succ_lt_succ h⟩) (xs.set m v)).trans
      (List.Perm.cons x (cons_set_perm v xs m (Nat.lt_of_succ_lt_succ h)))).trans
      (List.Perm.swap v x xs)

/-- The double `set` that swaps two in-bounds positions is a permutation. -/
theorem set_set_perm : ∀ (l : List α) (i j : Nat) (hi : i < l.length)
    (hj : j < l.length),
    ((l.set i (l.get ⟨j, hj⟩)).set j (l.get ⟨i, hi⟩)).Perm l
  | x :: xs, 0, 0, _, _ => by simp [List.set]
  | x :: xs, 0, j + 1, hi, hj => by
    simpa [List.set] using
      cons_set_perm x xs j (Nat.lt_of_succ_lt_succ hj)
  | x :: xs, i + 1, 0, hi, hj => by
    simpa [List.set] using
      cons_set_perm x xs i (Nat.lt_of_succ_lt_succ hi)
  | x :: xs, i + 1, j + 1, hi, hj => by
    simpa [List.set] using
      List.Perm.cons x
        (set_set_perm xs i j (Nat.lt_of_succ_lt_succ hi) (Nat.lt_of_succ_lt_succ hj))

/-- `listSwap` permutes its input. -/
theorem listSwap_perm (l : List α) (i j : Nat) : (listSwap l i j).Perm l := by
  unfold listSwap
  split
  · next h => exact set_set_perm l i j h.1 h.2
  · exact List.Perm.refl l

/-- The Fisher-Yates loop permutes its input. -/
theorem fyGo_perm (rand : Nat → Nat) : ∀ (i : Nat) (a : List α),
    (fyGo rand a i).Perm a
  | 0, a => List.Perm.refl a
  | i + 1, a =>
    (fyGo_perm rand i _).trans (listSwap_perm a (i + 1) (rand (i + 1) % (i + 2)))

/-- `shuffle` returns a permutation of its input. -/
theorem shuffle_perm (rand : Nat → Nat) (l : List α) : (shuffle rand l).Perm l :=
  fyGo_perm rand (l.length - 1) l


theorem shuffleQuestionChoices_eq (rand : Nat → Nat) (q : Question) :
    shuffleQuestionChoices rand q =
      { q with
        choices := (shuffledOf rand q).map (fun x => x.1)
        answerIndex := jsFindIndex (fun x => (x.2 : Int) == q.answerIndex)
          (shuffledOf rand q) } := rfl

theorem mem_indexedOf_iff (q : Question) (t : String) (i : Nat) :
    (t, i) ∈ indexedOf q ↔ q.choices.get? i = some t := by
  constructor
  · intro h
    obtain ⟨⟨i2, t2⟩, hp, he⟩ := List.mem_map.mp h
    cases he
    exact List.mk_mem_enum_iff_get?.mp hp
  · intro h
    exact List.mem_map.mpr ⟨(i, t), List.mk_mem_enum_iff_get?.mpr h, rfl⟩

theorem indexedOf_map_fst (q : Question) :
    (indexedOf q).map (fun x => x.1) = q.choices := by
  unfold indexedOf
  rw [List.map_map]
  exact List.enum_map_snd q.choices

/-- C2: for a question with an in-range answer index,
`shuffleQuestionChoices` returns choices that are a permutation of the
original choices, and the remapped answer index points at the very text the
original answer index pointed at.  The input is untouched: the embedding is
pure and the function builds a fresh record (value semantics). -/
theorem shuffleChoices_spec (rand : Nat → Nat) (q : Question)
    (h0 : 0 ≤ q.answerIndex) (h1 : q.answerIndex < (q.choices.length : Int)) :
    ((shuffleQuestionChoices rand q).choices).Perm q.choices ∧
    0 ≤ (shuffleQuestionChoices rand q).answerIndex ∧
    jsIndex (shuffleQuestionChoices rand q).choices
        (shuffleQuestionChoices rand q).answerIndex
      = jsIndex q.choices q.answerIndex ∧
    (jsIndex q.choices q.answerIndex).isSome = true := by
  have hkl : q.answerIndex.toNat < q.choices.length := by omega
  have hperm : (shuffledOf rand q).Perm (indexedOf q) := shuffle_perm _ _
  have hmem0 : (q.choices.get ⟨q.answerIndex.toNat, hkl⟩, q.answerIndex.toNat)
      ∈ indexedOf q :=
    (mem_indexedOf_iff q _ _).mpr (List.get?_eq_get hkl)
  have hmem : (q.choices.get ⟨q.answerIndex.toNat, hkl⟩, q.answerIndex.toNat)
      ∈ shuffledOf rand q := hperm.mem_iff.mpr hmem0
  have hpt : ((q.answerIndex.toNat : Int) == q.answerIndex) = true := by
    simp [Int.toNat_of_nonneg h0]
  have hex : ∃ x ∈ shuffledOf rand q,
      ((fun x : String × Nat => (x.2 : Int) == q.answerIndex) x) = true :=
    ⟨_, hmem, hpt⟩
  have hflt : (shuffledOf rand q).findIdx
      (fun x => (x.2 : Int) == q.answerIndex) < (shuffledOf rand q).length :=
    List.findIdx_lt_length_of_exists hex
  have hpe := @List.findIdx_get _ _ _ hflt
  set e := (shuffledOf rand q).get ⟨_, hflt⟩ with he
  have heMem : e ∈ indexedOf q := hperm.mem_iff.mp (List.get_mem _ _ _)
  have hchar : q.choices.get? e.2 = some e.1 :=
    (mem_indexedOf_iff q e.1 e.2).mp (by simpa using heMem)
  have he2 : e.2 = q.answerIndex.toNat := by
    have : (e.2 : Int) = q.answerIndex := by
      simpa using hpe
    omega
  have he1 : e.1 = q.choices.get ⟨q.answerIndex.toNat, hkl⟩ := by
    rw [he2, List.get?_eq_get hkl] at hchar
    exact (Option.some_inj.mp hchar).symm
  have hja : jsFindIndex (fun x => (x.2 : Int) == q.answerIndex)
      (shuffledOf rand q)
      = ((shuffledOf rand q).findIdx (fun x => (x.2 : Int) == q.answerIndex) : Int) := by
    simp [jsFindIndex, hflt]
  refine ⟨?_, ?_, ?_, ?_⟩
  · rw [shuffleQuestionChoices_eq]
    have h2 := hperm.map (fun x : String × Nat => x.1)
    rw [indexedOf_map_fst q] at h2
    exact h2
  · rw [shuffleQuestionChoices_eq]
    simp [hja]
  · rw [shuffleQuestionChoices_eq]
    simp only [hja]
    have hL : jsIndex ((shuffledOf rand q).map (fun x => x.1))
        (((shuffledOf rand q).findIdx (fun x => (x.2 : Int) == q.answerIndex) : Nat) : Int)
        = some e.1 := by
      unfold jsIndex
      rw [if_pos (Int.natCast_nonneg _), Int.toNat_natCast, List.get?_map,
        List.get?_eq_get hflt]
      rfl
    have hR : jsIndex q.choices q.answerIndex
        = some (q.choices.get ⟨q.answerIndex.toNat, hkl⟩) := by
      unfold jsIndex
      rw [if_pos h0, List.get?_eq_get hkl]
    rw [hL, hR, he1]
  · unfold jsIndex
    rw [if_pos h0, List.get?_eq_get hkl]
    rfl


theorem wpLoop_mem : ∀ (pairs : List (α × ℚ)) (r : ℚ) (x : α),
    wpLoop pairs r = some x → x ∈ pairs.map Prod.fst
  | [], r, x, h => by simp [wpLoop] at h
  | (a, w) :: rest, r, x, h => by
    rw [wpLoop] at h
    split at h
    · cases h
      exact List.mem_cons_self _ _
    · exact List.mem_cons_of_mem _ (wpLoop_mem rest (r - w) x h)

theorem weightedPick_def (items : List α) (weightFn : α → Option ℚ) (r : ℚ) :
    weightedPick items weightFn r =
      match wpLoop (items.zip (items.map (effWeight weightFn)))
          (r * (items.map (effWeight weightFn)).sum) with
      | some x => some x
      | none => items.getLast? := rfl

theorem weightedPick_eq_none_iff (items : List α) (weightFn : α → Option ℚ)
    (r : ℚ) : weightedPick items weightFn r = none ↔ items = [] := by
  constructor
  · intro h
    rw [weightedPick_def] at h
    split at h
    · exact absurd h (by simp)
    · simpa using h
  · intro h
    subst h
    rfl

theorem weightedPick_mem (items : List α) (weightFn : α → Option ℚ) (r : ℚ)
    (x : α) (h : weightedPick items weightFn r = some x) : x ∈ items := by
  rw [weightedPick_def] at h
  split at h
  · next y hy =>
    cases h
    have := wpLoop_mem _ _ _ hy
    rwa [List.map_fst_zip _ _ (by simp)] at this
  · next hy =>
    exact List.mem_of_mem_getLast? (by simpa using h)

theorem weightedPick_of_ne_nil (items : List α) (weightFn : α → Option ℚ)
    (r : ℚ) (h : items ≠ []) :
    ∃ x, x ∈ items ∧ weightedPick items weightFn r = some x := by
  cases hw : weightedPick items weightFn r with
  | none => exact absurd ((weightedPick_eq_none_iff _ _ _).mp hw) h
  | some x => exact ⟨x, weightedPick_mem _ _ _ _ hw, rfl⟩


theorem effWeight_pos (weightFn : α → Option ℚ) (it : α) :
    1 / 10000 ≤ effWeight weightFn it ∧ 0 < effWeight weightFn it :=
  ⟨le_max_left _ _, lt_of_lt_of_le (by norm_num) (le_max_left _ _)⟩

theorem wpLoop_hits : ∀ (pairs : List (α × ℚ)) (i : Nat) (hi : i < pairs.length),
    (∀ p ∈ pairs, 0 < p.2) →
    wpLoop pairs (((pairs.take i).map Prod.snd).sum + (pairs.get ⟨i, hi⟩).2 / 2)
      = some (pairs.get ⟨i, hi⟩).1
  | (x, w) :: rest, 0, hi, hpos => by
    have hw : 0 < w := hpos (x, w) (List.mem_cons_self _ _)
    rw [wpLoop]
    rw [if_pos (by simp; linarith)]
    rfl
  | (x, w) :: rest, i + 1, hi, hpos => by
    have hw : 0 < w := hpos (x, w) (List.mem_cons_self _ _)
    have hi2 : i < rest.length := Nat.lt_of_succ_lt_succ hi
    have hpos2 : ∀ p ∈ rest, 0 < p.2 :=
      fun p hp => hpos p (List.mem_cons_of_mem _ hp)
    have htake : 0 ≤ ((rest.take i).map Prod.snd).sum :=
      List.sum_nonneg (by
        intro x2 hx2
        obtain ⟨p, hp, rfl⟩ := List.mem_map.mp hx2
        exact le_of_lt (hpos2 p ((List.take_sublist i rest).subset hp)))
    have hwi : 0 < (rest.get ⟨i, hi2⟩).2 := hpos2 _ (List.get_mem _ _ _)
    rw [wpLoop]
    simp only [List.take_succ_cons, List.map_cons, List.sum_cons,
      List.get_cons_succ]
    rw [if_neg (by push_neg; linarith)]
    rw [show w + ((rest.take i).map Prod.snd).sum + (rest.get ⟨i, hi2⟩).2 / 2 - w
        = ((rest.take i).map Prod.snd).sum + (rest.get ⟨i, hi2⟩).2 / 2 from by ring]
    exact wpLoop_hits rest i hi2 hpos2


theorem weightedPick_reaches (items : List α) (weightFn : α → Option ℚ)
    (i : Nat) (hi : i < items.length) :
    ∃ r : ℚ, 0 ≤ r ∧ r < 1 ∧
      weightedPick items weightFn r = some (items.get ⟨i, hi⟩) := by
  set ws := items.map (effWeight weightFn) with hws
  have hlen : ws.length = items.length := by simp [hws]
  have hwpos : ∀ x ∈ ws, 0 < x := by
    intro x hx
    obtain ⟨it, _, rfl⟩ := List.mem_map.mp hx
    exact (effWeight_pos weightFn it).2
  have hne : ws ≠ [] := by
    intro h
    rw [h] at hlen
    simp at hlen
    omega
  have hS : 0 < ws.sum := List.sum_pos ws hwpos hne
  set pairs := items.zip ws with hpairs
  have hplen : pairs.length = items.length := by simp [hpairs, hlen]
  have hppos : ∀ p ∈ pairs, 0 < p.2 := by
    intro p hp
    exact hwpos p.2 (List.of_mem_zip hp).2
  have hip : i < pairs.length := by omega
  have hsnd : pairs.map Prod.snd = ws :=
    List.map_snd_zip _ _ (le_of_eq hlen)
  have htakesnd : (pairs.take i).map Prod.snd = ws.take i := by
    rw [List.map_take, hsnd]
  have hgetp : pairs.get ⟨i, hip⟩ = (items.get ⟨i, hi⟩, ws.get ⟨i, by omega⟩) := by
    simp [hpairs, List.get_zip]
  have hwsi : 0 < ws.get ⟨i, by omega⟩ :=
    hwpos _ (List.get_mem _ _ _)
  set num := (ws.take i).sum with hnum
  have hnum0 : 0 ≤ num := List.sum_nonneg (by
    intro x hx
    exact le_of_lt (hwpos x ((List.take_sublist i ws).subset hx)))
  have hsplit : ws.sum = (ws.take i).sum + (ws.drop i).sum :=
    (List.sum_take_add_sum_drop ws i).symm
  have hiw : i < ws.length := by omega
  have hdrop : ws.drop i = ws.get ⟨i, hiw⟩ :: ws.drop (i + 1) :=
    List.drop_eq_getElem_cons hiw
  have hdrop2 : 0 ≤ (ws.drop (i + 1)).sum := List.sum_nonneg (by
    intro x hx
    exact le_of_lt (hwpos x ((List.drop_sublist (i + 1) ws).subset hx)))
  have hband : num + ws.get ⟨i, by omega⟩ / 2 < ws.sum := by
    rw [hsplit, hdrop]
    simp only [List.sum_cons, ← hnum]
    linarith
  refine ⟨(num + ws.get ⟨i, by omega⟩ / 2) / ws.sum, ?_, ?_, ?_⟩
  · exact div_nonneg (by linarith) (le_of_lt hS)
  · rw [div_lt_one hS]
    exact hband
  · rw [weightedPick_def]
    rw [← hws, ← hpairs]
    rw [div_mul_cancel₀ _ (ne_of_gt hS)]
    have := wpLoop_hits pairs i hip hppos
    rw [htakesnd, hgetp] at this
    simp only at this
    rw [← hnum] at this
    rw [this]


theorem contains_iff_mem {l : List String} {a : String} :
    l.contains a = true ↔ a ∈ l := by
  rw [List.contains_iff_exists_mem_beq]
  constructor
  · rintro ⟨b, hb, he⟩
    rw [beq_iff_eq] at he
    rwa [he]
  · intro h
    exact ⟨a, h, by simp⟩

theorem mem_candidatesOf {pool : List Question} {used : List String}
    {q : Question} :
    q ∈ candidatesOf pool used ↔ q ∈ pool ∧ ¬(q.id ∈ used) := by
  unfold candidatesOf
  rw [List.mem_filter]
  simp [contains_iff_mem]

theorem buildLoop_succ (rp : Nat → ℚ) (pool : List Question) (count : Int)
    (weightFn : Question → Option ℚ) (fuel attempts : Nat)
    (picked : List Question) (used : List String) :
    buildLoop rp pool count weightFn (fuel + 1) attempts picked used =
      if (picked.length : Int) < count then
        if (candidatesOf pool used).isEmpty then (picked, used)
        else
          match weightedPick (candidatesOf pool used) weightFn (rp attempts) with
          | none => (picked, used)
          | some q => buildLoop rp pool count weightFn fuel (attempts + 1)
              (picked ++ [q]) (used ++ [q.id])
      else (picked, used) := rfl

theorem buildLoop_inv (rp : Nat → ℚ) (pool : List Question) (count : Int)
    (weightFn : Question → Option ℚ) :
    ∀ (fuel attempts : Nat) (picked : List Question) (used : List String),
    used = picked.map (fun q => q.id) →
    (∀ q ∈ picked, q ∈ pool) →
    ((picked.map (fun q => q.id)).Nodup) →
    ((buildLoop rp pool count weightFn fuel attempts picked used).2
        = (buildLoop rp pool count weightFn fuel attempts picked used).1.map
            (fun q => q.id)) ∧
    (∀ q ∈ (buildLoop rp pool count weightFn fuel attempts picked used).1,
        q ∈ pool) ∧
    (((buildLoop rp pool count weightFn fuel attempts picked used).1.map
        (fun q => q.id)).Nodup) ∧
    (picked.length ≤ count.toNat →
      (buildLoop rp pool count weightFn fuel attempts picked used).1.length
        ≤ count.toNat) := by
  intro fuel
  induction fuel with
  | zero =>
    intro attempts picked used h1 h2 h3
    exact ⟨h1, h2, h3, fun h => h⟩
  | succ fuel ih =>
    intro attempts picked used h1 h2 h3
    rw [buildLoop_succ]
    by_cases hlt : (picked.length : Int) < count
    · rw [if_pos hlt]
      by_cases hemp : (candidatesOf pool used).isEmpty
      · rw [if_pos hemp]
        exact ⟨h1, h2, h3, fun h => h⟩
      · rw [if_neg hemp]
        cases hwp : weightedPick (candidatesOf pool used) weightFn (rp attempts) with
        | none => exact ⟨h1, h2, h3, fun h => h⟩
        | some q =>
          have hqc : q ∈ candidatesOf pool used :=
            weightedPick_mem _ _ _ _ hwp
          have hqp : q ∈ pool := (mem_candidatesOf.mp hqc).1
          have hqu : ¬ q.id ∈ used := (mem_candidatesOf.mp hqc).2
          have h1' : used ++ [q.id] = (picked ++ [q]).map (fun q => q.id) := by
            rw [List.map_append, h1]
            rfl
          have h2' : ∀ p ∈ picked ++ [q], p ∈ pool := by
            intro p hp
            rcases List.mem_append.mp hp with h | h
            · exact h2 p h
            · rw [List.mem_singleton.mp h]
              exact hqp
          have h3' : ((picked ++ [q]).map (fun q => q.id)).Nodup := by
            rw [List.map_append]
            refine List.Nodup.append h3 (by simp) ?_
            intro a ha hb
            simp at hb
            subst hb
            rw [← h1] at ha
            exact hqu ha
          obtain ⟨g1, g2, g3, g4⟩ :=
            ih (attempts + 1) (picked ++ [q]) (used ++ [q.id]) h1' h2' h3'
          refine ⟨g1, g2, g3, fun hle => g4 ?_⟩
          rw [List.length_append]
          simp only [List.length_singleton]
          omega
    · rw [if_neg hlt]
      exact ⟨h1, h2, h3, fun h => h⟩


theorem buildLoop_len (rp : Nat → ℚ) (pool : List Question) (count : Int)
    (weightFn : Question → Option ℚ)
    (hpool : (pool.map (fun q => q.id)).Nodup)
    (hcnt : count ≤ (pool.length : Int)) :
    ∀ (fuel attempts : Nat) (picked : List Question) (used : List String),
    used = picked.map (fun q => q.id) →
    (∀ q ∈ picked, q ∈ pool) →
    ((picked.map (fun q => q.id)).Nodup) →
    picked.length ≤ count.toNat →
    (buildLoop rp pool count weightFn fuel attempts picked used).1.length
      = min count.toNat (picked.length + fuel) := by
  intro fuel
  induction fuel with
  | zero =>
    intro attempts picked used h1 h2 h3 h4
    show picked.length = min count.toNat (picked.length + 0)
    omega
  | succ fuel ih =>
    intro attempts picked used h1 h2 h3 h4
    rw [buildLoop_succ]
    by_cases hlt : (picked.length : Int) < count
    · rw [if_pos hlt]
      have hne : ¬ (candidatesOf pool used).isEmpty = true := by
        intro hemp
        rw [List.isEmpty_iff] at hemp
        have hsub : pool.map (fun q => q.id) ⊆ used := by
          intro y hy
          obtain ⟨q, hq, rfl⟩ := List.mem_map.mp hy
          by_contra hniy
          have hqin : q ∈ candidatesOf pool used :=
            mem_candidatesOf.mpr ⟨hq, hniy⟩
          rw [hemp] at hqin
          simp at hqin
        have hle := (List.subperm_of_subset hpool hsub).length_le
        rw [h1] at hle
        simp only [List.length_map] at hle
        omega
      rw [if_neg hne]
      have hne2 : candidatesOf pool used ≠ [] := by
        intro h
        rw [h] at hne
        simp at hne
      obtain ⟨q, hqmem, hq⟩ :=
        weightedPick_of_ne_nil _ weightFn (rp attempts) hne2
      rw [hq]
      have hqp : q ∈ pool := (mem_candidatesOf.mp hqmem).1
      have hqu : ¬ q.id ∈ used := (mem_candidatesOf.mp hqmem).2
      have h1' : used ++ [q.id] = (picked ++ [q]).map (fun q => q.id) := by
        rw [List.map_append, h1]
        rfl
      have h2' : ∀ p ∈ picked ++ [q], p ∈ pool := by
        intro p hp
        rcases List.mem_append.mp hp with h | h
        · exact h2 p h
        · rw [List.mem_singleton.mp h]
          exact hqp
      have h3' : ((picked ++ [q]).map (fun q => q.id)).Nodup := by
        rw [List.map_append]
        refine List.Nodup.append h3 (by simp) ?_
        intro a ha hb
        simp at hb
        subst hb
        rw [← h1] at ha
        exact hqu ha
      have h4' : (picked ++ [q]).length ≤ count.toNat := by
        rw [List.length_append]
        simp only [List.length_singleton]
        omega
      rw [ih (attempts + 1) (picked ++ [q]) (used ++ [q.id]) h1' h2' h3' h4']
      rw [List.length_append]
      simp only [List.length_singleton]
      omega
    · rw [if_neg hlt]
      show picked.length = min count.toNat (picked.length + (fuel + 1))
      omega


theorem buildExam_eq (bank : List Question) (rp : Nat → ℚ) (rs : Nat → Nat → Nat)
    (count : Int) (focus : String) (stats : Stats) :
    buildExamQuestions bank rp rs count focus stats =
      (buildPicked bank rp count focus stats).enum.map
        (fun p => shuffleQuestionChoices (rs p.1) p.2) := rfl

theorem shuffleMap_map_id (rs : Nat → Nat → Nat) (l : List Question) :
    ((l.enum.map (fun p => shuffleQuestionChoices (rs p.1) p.2)).map
        (fun q => q.id)) = l.map (fun q => q.id) := by
  rw [List.map_map]
  have h : ((fun q : Question => q.id) ∘
      fun p : Nat × Question => shuffleQuestionChoices (rs p.1) p.2)
      = (fun q : Question => q.id) ∘ Prod.snd := rfl
  rw [h, ← List.map_map, List.enum_map_snd]

theorem shuffleMap_length (rs : Nat → Nat → Nat) (l : List Question) :
    (l.enum.map (fun p => shuffleQuestionChoices (rs p.1) p.2)).length
      = l.length := by
  simp

theorem examPool_sublist (bank : List Question) (count : Int) (focus : String) :
    List.Sublist (examPool bank count focus) bank := by
  unfold examPool
  dsimp only
  split
  · split
    · exact List.Sublist.refl bank
    · exact List.filter_sublist bank
  · split
    · exact List.Sublist.refl bank
    · exact List.Sublist.refl bank

theorem examPool_ids_nodup (bank : List Question) (count : Int) (focus : String)
    (hbank : (bank.map (fun q => q.id)).Nodup) :
    ((examPool bank count focus).map (fun q => q.id)).Nodup :=
  ((examPool_sublist bank count focus).map _).nodup hbank

theorem examPool_of_bank_lt (bank : List Question) (count : Int) (focus : String)
    (h : (bank.length : Int) < count) : examPool bank count focus = bank := by
  unfold examPool
  dsimp only
  split
  · split
    · rfl
    · next hc =>
      exfalso
      have := List.length_filter_le (fun q => q.category == focus) bank
      omega
  · rfl

theorem pool_split (pool : List Question) (used : List String) :
    (pool.filter (fun q => used.contains q.id)).length
      + (candidatesOf pool used).length = pool.length := by
  unfold candidatesOf
  induction pool with
  | nil => rfl
  | cons x xs ih =>
    rw [List.filter_cons, List.filter_cons]
    by_cases hx : used.contains x.id = true
    · rw [if_pos hx, if_neg (by rw [hx]; simp)]
      simp only [List.length_cons]
      omega
    · have hx2 : used.contains x.id = false := by
        cases h2 : used.contains x.id
        · rfl
        · exact absurd h2 hx
      rw [if_neg (by rw [hx2]; simp), if_pos (by rw [hx2]; simp)]
      simp only [List.length_cons]
      omega

theorem removed_le (pool : List Question) (used : List String)
    (hpool : (pool.map (fun q => q.id)).Nodup) :
    (pool.filter (fun q => used.contains q.id)).length ≤ used.length := by
  have hsubl : (pool.filter (fun q => used.contains q.id)).map (fun q => q.id)
      ⊆ used := by
    intro y hy
    obtain ⟨q, hq, rfl⟩ := List.mem_map.mp hy
    exact contains_iff_mem.mp ((List.mem_filter.mp hq).2)
  have hnd : ((pool.filter (fun q => used.contains q.id)).map
      (fun q => q.id)).Nodup :=
    ((List.filter_sublist pool).map _).nodup hpool
  have hle := (List.subperm_of_subset hnd hsubl).length_le
  simpa using hle

theorem picked_le_removed (pool : List Question) (used : List String)
    (picked : List Question)
    (h1 : used = picked.map (fun q => q.id))
    (h2 : ∀ q ∈ picked, q ∈ pool)
    (h3 : ((picked.map (fun q => q.id))).Nodup) :
    picked.length ≤ (pool.filter (fun q => used.contains q.id)).length := by
  have hnd : picked.Nodup := List.Nodup.of_map _ h3
  have hsub : picked ⊆ pool.filter (fun q => used.contains q.id) := by
    intro q hq
    rw [List.mem_filter]
    refine ⟨h2 q hq, ?_⟩
    rw [contains_iff_mem, h1]
    exact List.mem_map_of_mem _ hq
  exact (List.subperm_of_subset hnd hsub).length_le

theorem picked_ids_sub_pool (pool : List Question) (picked : List Question)
    (h2 : ∀ q ∈ picked, q ∈ pool) :
    picked.map (fun q => q.id) ⊆ pool.map (fun q => q.id) := by
  intro y hy
  obtain ⟨q, hq, rfl⟩ := List.mem_map.mp hy
  exact List.mem_map_of_mem _ (h2 q hq)

theorem picked_len_le_pool (pool : List Question) (picked : List Question)
    (h2 : ∀ q ∈ picked, q ∈ pool)
    (h3 : ((picked.map (fun q => q.id))).Nodup) :
    picked.length ≤ pool.length := by
  have := (List.subperm_of_subset h3 (picked_ids_sub_pool pool picked h2)).length_le
  simpa using this

theorem disjoint_used_candidates (pool : List Question) (used : List String) :
    List.Disjoint used ((candidatesOf pool used).map (fun q => q.id)) := by
  intro a ha hb
  obtain ⟨q, hq, rfl⟩ := List.mem_map.mp hb
  exact (mem_candidatesOf.mp hq).2 ha


theorem buildRes_facts (bank : List Question) (rp : Nat → ℚ) (count : Int)
    (focus : String) (stats : Stats) :
    (buildRes bank rp count focus stats).2
        = (buildRes bank rp count focus stats).1.map (fun q => q.id) ∧
    (∀ q ∈ (buildRes bank rp count focus stats).1, q ∈ examPool bank count focus) ∧
    ((buildRes bank rp count focus stats).1.map (fun q => q.id)).Nodup ∧
    (buildRes bank rp count focus stats).1.length ≤ count.toNat := by
  have h := buildLoop_inv rp (examPool bank count focus) count
    (buildWeightFn focus (weaknessWeights stats.perCategory)) attemptsLimit 0 [] []
    rfl (by intro q hq; simp at hq) (by simp)
  exact ⟨h.1, h.2.1, h.2.2.1, h.2.2.2 (Nat.zero_le _)⟩

/-- C5: over a bank with distinct ids (the data-model invariant of §3),
`buildExamQuestions` yields the empty list for `count ≤ 0`, widens the
focused pool back to the full bank when it is smaller than `count`, returns
exactly `count` questions whenever the (widened) pool has at least `count`,
and returns every bank question (as id-preserving shuffled copies) when the
bank is smaller than `count` — never an error. -/
theorem buildExam_quota (bank : List Question) (rp : Nat → ℚ)
    (rs : Nat → Nat → Nat) (count : Int) (focus : String) (stats : Stats)
    (hbank : (bank.map (fun q => q.id)).Nodup) :
    (count ≤ 0 → buildExamQuestions bank rp rs count focus stats = []) ∧
    (((bank.filter (fun q => q.category == focus)).length : Int) < count →
        examPool bank count focus = bank) ∧
    (0 ≤ count → count ≤ ((examPool bank count focus).length : Int) →
        (buildExamQuestions bank rp rs count focus stats).length = count.toNat) ∧
    ((bank.length : Int) < count →
        ((buildExamQuestions bank rp rs count focus stats).map (fun q => q.id)).Perm
          (bank.map (fun q => q.id))) := by
  refine ⟨?_, ?_, ?_, ?_⟩
  · -- count ≤ 0 → empty
    intro h
    rw [buildExam_eq]
    have hres : buildRes bank rp count focus stats = ([], []) := by
      unfold buildRes
      have h5 : attemptsLimit = 4999 + 1 := rfl
      rw [h5, buildLoop_succ]
      rw [if_neg (by simp; omega)]
    unfold buildPicked
    dsimp only
    rw [hres]
    dsimp only
    rw [if_neg (by simp; omega)]
    rfl
  · -- widening
    intro hflt
    unfold examPool
    dsimp only
    split
    · rfl
    · rw [ite_self]
  · -- quota
    intro h0 hc
    rw [buildExam_eq, shuffleMap_length]
    obtain ⟨f1, f2, f3, f4⟩ := buildRes_facts bank rp count focus stats
    have hpool := examPool_ids_nodup bank count focus hbank
    have hlen := buildLoop_len rp (examPool bank count focus) count
      (buildWeightFn focus (weaknessWeights stats.perCategory)) hpool hc
      attemptsLimit 0 [] [] rfl (by intro q hq; simp at hq) (by simp)
      (Nat.zero_le _)
    change (buildRes bank rp count focus stats).1.length = _ at hlen
    simp only [List.length_nil, Nat.zero_add] at hlen
    have hal : attemptsLimit = 5000 := rfl
    rw [hal] at hlen
    unfold buildPicked
    dsimp only
    split
    · next hcond =>
      rw [List.length_append, List.length_take]
      have hsplit := pool_split (examPool bank count focus)
        (buildRes bank rp count focus stats).2
      have hremle := removed_le (examPool bank count focus)
        (buildRes bank rp count focus stats).2 hpool
      have husedlen : (buildRes bank rp count focus stats).2.length
          = (buildRes bank rp count focus stats).1.length := by
        rw [f1]
        simp
      omega
    · next hcond =>
      omega
  · -- shortfall: every bank question appears
    intro hshort
    have hpb : examPool bank count focus = bank :=
      examPool_of_bank_lt bank count focus hshort
    rw [buildExam_eq, shuffleMap_map_id]
    obtain ⟨f1, f2, f3, f4⟩ := buildRes_facts bank rp count focus stats
    rw [hpb] at f2
    have hreslen : (buildRes bank rp count focus stats).1.length ≤ bank.length :=
      picked_len_le_pool bank _ f2 f3
    unfold buildPicked
    dsimp only
    rw [hpb]
    rw [if_pos (by omega)]
    have hr1 := picked_le_removed bank (buildRes bank rp count focus stats).2
      (buildRes bank rp count focus stats).1 f1 f2 f3
    have hsplit := pool_split bank (buildRes bank rp count focus stats).2
    have htake : (candidatesOf bank (buildRes bank rp count focus stats).2).take
        ((count - ((buildRes bank rp count focus stats).1.length : Int)).toNat)
        = candidatesOf bank (buildRes bank rp count focus stats).2 := by
      apply List.take_of_length_le
      omega
    rw [htake, List.map_append]
    have hcandnd : ((candidatesOf bank
        (buildRes bank rp count focus stats).2).map (fun q => q.id)).Nodup :=
      ((List.filter_sublist bank).map _).nodup hbank
    have hndL : ((buildRes bank rp count focus stats).1.map (fun q => q.id)
        ++ (candidatesOf bank (buildRes bank rp count focus stats).2).map
            (fun q => q.id)).Nodup := by
      refine List.Nodup.append f3 hcandnd ?_
      rw [← f1]
      exact disjoint_used_candidates bank (buildRes bank rp count focus stats).2
    refine (List.perm_ext_iff_of_nodup hndL hbank).mpr ?_
    intro a
    constructor
    · intro ha
      rcases List.mem_append.mp ha with h | h
      · obtain ⟨q, hq, rfl⟩ := List.mem_map.mp h
        exact List.mem_map_of_mem _ (f2 q hq)
      · obtain ⟨q, hq, rfl⟩ := List.mem_map.mp h
        exact List.mem_map_of_mem _ (mem_candidatesOf.mp hq).1
    · intro ha
      obtain ⟨q, hq, rfl⟩ := List.mem_map.mp ha
      rcases Decidable.em (q.id ∈ (buildRes bank rp count focus stats).2) with hu | hu
      · rw [f1] at hu
        exact List.mem_append.mpr (Or.inl hu)
      · exact List.mem_append.mpr (Or.inr
          (List.mem_map_of_mem _ (mem_candidatesOf.mpr ⟨hq, hu⟩)))


/-- C6: for every count, focus, profile and bank with pairwise-distinct ids,
the questions returned by `buildExamQuestions` have pairwise-distinct ids —
no question is picked twice, including by the fill-remainder phase. -/
theorem buildExam_nodup (bank : List Question) (rp : Nat → ℚ)
    (rs : Nat → Nat → Nat) (count : Int) (focus : String) (stats : Stats)
    (hbank : (bank.map (fun q => q.id)).Nodup) :
    ((buildExamQuestions bank rp rs count focus stats).map
        (fun q => q.id)).Nodup := by
  rw [buildExam_eq, shuffleMap_map_id]
  obtain ⟨f1, f2, f3, f4⟩ := buildRes_facts bank rp count focus stats
  have hpool := examPool_ids_nodup bank count focus hbank
  unfold buildPicked
  dsimp only
  split
  · rw [List.map_append]
    refine List.Nodup.append f3 ?_ ?_
    · exact ((List.take_sublist _ _).map _).nodup
        (((List.filter_sublist _).map _).nodup hpool)
    · intro a ha hb
      obtain ⟨q, hq, rfl⟩ := List.mem_map.mp hb
      have hq2 : q ∈ candidatesOf (examPool bank count focus)
          (buildRes bank rp count focus stats).2 :=
        (List.take_sublist _ _).subset hq
      have hnot := (mem_candidatesOf.mp hq2).2
      rw [f1] at hnot
      exact hnot ha
  · exact f3


theorem afterNav_total (now : Nat) (t : Session) :
    (afterNav now t).total = t.total := by
  unfold afterNav renderResultsStep
  split <;> rfl

theorem afterNav_index (now : Nat) (t : Session) :
    (afterNav now t).index = t.index := by
  unfold afterNav renderResultsStep
  split <;> rfl

theorem afterNav_answers (now : Nat) (t : Session) :
    (afterNav now t).answers = t.answers := by
  unfold afterNav renderResultsStep
  split <;> rfl

theorem afterNav_questions (now : Nat) (t : Session) :
    (afterNav now t).questions = t.questions := by
  unfold afterNav renderResultsStep
  split <;> rfl

theorem step_eq_next_some (now : Nat) (s : Session) (hv : s.view = .progress)
    {q : Question} (hq : s.questions[s.index]? = some q) :
    step now s .next =
      if s.mode = .exam ∧ ¬(s.answers.any (fun a => a.id == q.id)) then s
      else afterNav now { s with index := s.index + 1 } := by
  unfold step
  rw [hv, hq]

theorem step_eq_next_none (now : Nat) (s : Session) (hv : s.view = .progress)
    (hq : s.questions[s.index]? = none) : step now s .next = s := by
  unfold step
  rw [hv, hq]

theorem step_eq_back_some (now : Nat) (s : Session) (hv : s.view = .progress)
    {q : Question} (hq : s.questions[s.index]? = some q) :
    step now s .back = afterNav now { s with index := s.index - 1 } := by
  unfold step
  rw [hv, hq]

theorem step_eq_back_none (now : Nat) (s : Session) (hv : s.view = .progress)
    (hq : s.questions[s.index]? = none) : step now s .back = s := by
  unfold step
  rw [hv, hq]

theorem step_eq_choose_some (now : Nat) (s : Session) (hv : s.view = .progress)
    {q : Question} (hq : s.questions[s.index]? = some q) (i : Nat) :
    step now s (.choose i) =
      if s.answers.any (fun a => a.id == q.id) then s
      else afterNav now { s with answers := s.answers ++
          [{ id := q.id, chosenIndex := i,
             correct := (i : Int) == q.answerIndex,
             category := q.category }] } := by
  unfold step
  rw [hv, hq]

theorem step_eq_choose_none (now : Nat) (s : Session) (hv : s.view = .progress)
    (hq : s.questions[s.index]? = none) (i : Nat) :
    step now s (.choose i) = s := by
  unfold step
  rw [hv, hq]

theorem step_eq_review (now : Nat) (s : Session) (hv : s.view = .results) :
    step now s .review = { s with index := 0, view := .review } := by
  unfold step
  rw [hv]

theorem step_eq_backToResults (now : Nat) (s : Session) (hv : s.view = .review) :
    step now s .backToResults = renderResultsStep now s := by
  unfold step
  rw [hv]

theorem step_eq_noop_progress (now : Nat) (s : Session)
    (hv : s.view = .progress) (e : Event)
    (he : e = .review ∨ e = .backToResults) : step now s e = s := by
  unfold step
  rw [hv]
  rcases he with rfl | rfl <;> rfl

theorem step_eq_noop_results (now : Nat) (s : Session) (hv : s.view = .results)
    (e : Event) (he : e ≠ .review) : step now s e = s := by
  unfold step
  rw [hv]
  cases e <;> first | rfl | exact absurd rfl he

theorem step_eq_noop_review (now : Nat) (s : Session) (hv : s.view = .review)
    (e : Event) (he : e ≠ .backToResults) : step now s e = s := by
  unfold step
  rw [hv]
  cases e <;> first | rfl | exact absurd rfl he


/-- C3: at any in-progress state (question card shown, current question
exists), a `next` event in exam mode with no recorded answer for the current
question leaves the whole session state unchanged, while in practice mode
`next` always increments the index regardless of answer state. -/
theorem exam_gating (now : Nat) (s : Session) (hv : s.view = .progress)
    (hq : s.index < s.questions.length) :
    ((s.mode = .exam ∧ currentAnswered s = false) → step now s .next = s) ∧
    (s.mode = .practice → (step now s .next).index = s.index + 1) := by
  have hsome : s.questions[s.index]? = some (s.questions.get ⟨s.index, hq⟩) :=
    List.getElem?_eq_getElem hq
  have hstep := step_eq_next_some now s hv hsome
  constructor
  · rintro ⟨hm, hans⟩
    rw [hstep, if_pos]
    unfold currentAnswered at hans
    rw [hsome] at hans
    have hans2 : (s.answers.any
        (fun a => a.id == (s.questions.get ⟨s.index, hq⟩).id)) = false := hans
    exact ⟨hm, by rw [hans2]; simp⟩
  · intro hm
    rw [hstep, if_neg]
    · rw [afterNav_index]
    · rintro ⟨hm2, _⟩
      rw [hm] at hm2
      simp at hm2

theorem step_answers_eq (now : Nat) (s : Session) (e : Event) :
    (step now s e).answers = s.answers ∨
    (∃ q i, s.questions[s.index]? = some q ∧
      (s.answers.any (fun a => a.id == q.id)) = false ∧
      (step now s e).answers = s.answers ++
        [{ id := q.id, chosenIndex := i,
           correct := (i : Int) == q.answerIndex,
           category := q.category }]) := by
  cases hv : s.view
  case results =>
    rcases Decidable.em (e = .review) with rfl | hne
    · rw [step_eq_review now s hv]
      exact Or.inl rfl
    · rw [step_eq_noop_results now s hv e hne]
      exact Or.inl rfl
  case review =>
    rcases Decidable.em (e = .backToResults) with rfl | hne
    · rw [step_eq_backToResults now s hv]
      exact Or.inl rfl
    · rw [step_eq_noop_review now s hv e hne]
      exact Or.inl rfl
  case progress =>
    cases e
    case back =>
      cases hq : s.questions[s.index]?
      · rw [step_eq_back_none now s hv hq]
        exact Or.inl rfl
      · rw [step_eq_back_some now s hv hq]
        exact Or.inl (afterNav_answers now _)
    case next =>
      cases hq : s.questions[s.index]?
      · rw [step_eq_next_none now s hv hq]
        exact Or.inl rfl
      · rw [step_eq_next_some now s hv hq]
        split
        · exact Or.inl rfl
        · exact Or.inl (afterNav_answers now _)
    case choose i =>
      cases hq : s.questions[s.index]?
      · rw [step_eq_choose_none now s hv hq]
        exact Or.inl rfl
      · next q =>
        rw [step_eq_choose_some now s hv hq]
        by_cases hans : (s.answers.any (fun a => a.id == q.id)) = true
        · rw [if_pos hans]
          exact Or.inl rfl
        · rw [if_neg hans]
          refine Or.inr ⟨q, i, rfl, by simpa using hans, ?_⟩
          exact afterNav_answers now _
    case review =>
      rw [step_eq_noop_progress now s hv _ (Or.inl rfl)]
      exact Or.inl rfl
    case backToResults =>
      rw [step_eq_noop_progress now s hv _ (Or.inr rfl)]
      exact Or.inl rfl

/-- C4: submitting an answer when the current question already has one is a
silent no-op — a second `choose` right after a first leaves the state exactly
as after the first, in every mode and on every screen — and every event
preserves distinctness of answered question ids, so at most one answer per
question id exists. -/
theorem reanswer_guard (now : Nat) (s : Session) (i j : Nat) (e : Event)
    (h : ((s.answers.map (fun a => a.id)).Nodup)) :
    step now (step now s (.choose i)) (.choose j) = step now s (.choose i) ∧
    (((step now s e).answers.map (fun a => a.id)).Nodup) := by
  constructor
  · cases hv : s.view
    case results =>
      have h1 := step_eq_noop_results now s hv (.choose i) (by simp)
      rw [h1]
      exact step_eq_noop_results now s hv (.choose j) (by simp)
    case review =>
      have h1 := step_eq_noop_review now s hv (.choose i) (by simp)
      rw [h1]
      exact step_eq_noop_review now s hv (.choose j) (by simp)
    case progress =>
      cases hq : s.questions[s.index]?
      · have h1 := step_eq_choose_none now s hv hq i
        rw [h1]
        exact step_eq_choose_none now s hv hq j
      · next q =>
        rw [step_eq_choose_some now s hv hq i]
        by_cases hans : (s.answers.any (fun a => a.id == q.id)) = true
        · rw [if_pos hans]
          rw [step_eq_choose_some now s hv hq j, if_pos hans]
        · rw [if_neg hans]
          have hlen : s.index < s.questions.length := by
            rcases List.getElem?_eq_some.mp hq with ⟨hl, _⟩
            exact hl
          set ans : Answer :=
            { id := q.id, chosenIndex := i,
              correct := (i : Int) == q.answerIndex,
              category := q.category } with hans2
          set t : Session := { s with answers := s.answers ++ [ans] } with ht
          have htv : (afterNav now t).view = .progress := by
            unfold afterNav
            rw [if_pos (by simpa [ht] using hlen)]
          have htq : (afterNav now t).questions[(afterNav now t).index]?
              = some q := by
            rw [afterNav_index, afterNav_questions]
            simpa [ht] using hq
          rw [step_eq_choose_some now _ htv htq j]
          rw [if_pos (by
            rw [afterNav_answers]
            simp [ht, hans2])]
  · rcases step_answers_eq now s e with heq | ⟨q, i2, hq, hans, heq⟩
    · rw [heq]
      exact h
    · rw [heq, List.map_append]
      refine List.Nodup.append h (by simp) ?_
      intro a ha hb
      simp at hb
      subst hb
      obtain ⟨a2, ha2, hid⟩ := List.mem_map.mp ha
      rw [List.any_eq_false] at hans
      exact hans a2 ha2 (by simp [hid])

theorem step_total (now : Nat) (s : Session) (e : Event) :
    (step now s e).total = s.total := by
  rcases step_answers_eq now s e with _ | _
  all_goals {
    cases hv : s.view
    case results =>
      rcases Decidable.em (e = .review) with rfl | hne
      · rw [step_eq_review now s hv]
      · rw [step_eq_noop_results now s hv e hne]
    case review =>
      rcases Decidable.em (e = .backToResults) with rfl | hne
      · rw [step_eq_backToResults now s hv]
        rfl
      · rw [step_eq_noop_review now s hv e hne]
    case progress =>
      cases e
      case back =>
        cases hq : s.questions[s.index]?
        · rw [step_eq_back_none now s hv hq]
        · rw [step_eq_back_some now s hv hq]
          rw [afterNav_total]
      case next =>
        cases hq : s.questions[s.index]?
        · rw [step_eq_next_none now s hv hq]
        · rw [step_eq_next_some now s hv hq]
          split
          · rfl
          · rw [afterNav_total]
      case choose i =>
        cases hq : s.questions[s.index]?
        · rw [step_eq_choose_none now s hv hq]
        · rw [step_eq_choose_some now s hv hq]
          split
          · rfl
          · rw [afterNav_total]
      case review =>
        rw [step_eq_noop_progress now s hv _ (Or.inl rfl)]
      case backToResults =>
        rw [step_eq_noop_progress now s hv _ (Or.inr rfl)]
  }


theorem runTrace_total (now : Nat) (es : List Event) :
    ∀ s : Session, (runTrace now s es).total = s.total := by
  induction es with
  | nil => intro s; rfl
  | cons e es ih =>
    intro s
    unfold runTrace at ih ⊢
    rw [List.foldl_cons]
    exact (ih (step now s e)).trans (step_total now s e)

theorem startExam_total (bank : List Question) (rp : Nat → ℚ)
    (rs : Nat → Nat → Nat) (now : Nat) (mode : Mode) (count : Int)
    (focus : String) (stats : Stats) :
    (startExam bank rp rs now mode count focus stats).total = count := by
  unfold startExam
  rw [afterNav_total]

/-- C10: the session `total` is the count requested at `startExam`, and it
stays so under every event trace — so the recorded attempt total and the
score clamp bound are the requested count, not `questions.length`, even when
a bank shortfall made the built question list shorter (the witness runs with
a 1-question bank and a requested count of 5). -/
theorem total_is_requested (bank : List Question) (rp : Nat → ℚ)
    (rs : Nat → Nat → Nat) (now : Nat) (mode : Mode) (count : Int)
    (focus : String) (stats : Stats) (es : List Event) (hc : 0 ≤ count) :
    (runTrace now (startExam bank rp rs now mode count focus stats) es).total
      = count ∧
    (finalizeStats now
        (runTrace now (startExam bank rp rs now mode count focus stats) es)).history
      = (runTrace now (startExam bank rp rs now mode count focus stats)
          es).stats.history
        ++ [mkAttempt now
            (runTrace now (startExam bank rp rs now mode count focus stats) es)] ∧
    (mkAttempt now
        (runTrace now (startExam bank rp rs now mode count focus stats) es)).total
      = count ∧
    0 ≤ (mkAttempt now
        (runTrace now (startExam bank rp rs now mode count focus stats) es)).score ∧
    (mkAttempt now
        (runTrace now (startExam bank rp rs now mode count focus stats) es)).score
      ≤ count := by
  have htot : (runTrace now (startExam bank rp rs now mode count focus stats)
      es).total = count :=
    (runTrace_total now es _).trans
      (startExam_total bank rp rs now mode count focus stats)
  refine ⟨htot, rfl, htot, ?_, ?_⟩
  · exact le_max_left 0 _
  · show max 0 (min (runTrace now (startExam bank rp rs now mode count focus
        stats) es).total _) ≤ count
    exact max_le hc (le_trans (min_le_left _ _) (le_of_eq htot))


/-- C1 (bug evaluation): completing a one-question session and then
toggling Review → Results (the review card's Back button is wired to
`renderResults`) runs the finalization twice — history gains two attempts
and the session's single answer is folded into `perCategory` twice, where
the claim (and spec §4.6) require exactly one attempt and one fold. -/
theorem resultsToggleDoubleFinalize :
    (runTrace 0 (startExam [qW1] rpW rsW 0 .practice 1 "all" statsW)
        [.choose 0, .next, .review, .backToResults]).stats.history.length = 2 ∧
    (runTrace 0 (startExam [qW1] rpW rsW 0 .practice 1 "all" statsW)
        [.choose 0, .next, .review, .backToResults]).stats.perCategory
      = [("network", ⟨2, 2⟩)] := by
  with_unfolding_all decide

theorem lookup_setKV_self : ∀ (l : List (String × JsValue)) (k : String)
    (v : JsValue), (setKV l k v).lookup k = some v := by
  intro l k v
  induction l with
  | nil => simp [setKV, List.lookup]
  | cons p rest ih =>
    obtain ⟨k0, v0⟩ := p
    rw [setKV]
    by_cases h : (k0 == k) = true
    · rw [if_pos h]
      have hk : k0 = k := beq_iff_eq.mp h
      subst hk
      simp [List.lookup]
    · rw [if_neg h]
      have hk : ¬ k = k0 := fun he => h (beq_iff_eq.mpr he.symm)
      simp only [List.lookup]
      rw [show (k == k0) = false from beq_eq_false_iff_ne.mpr hk]
      exact ih

theorem lookup_setKV_ne : ∀ (l : List (String × JsValue)) (k k2 : String)
    (v : JsValue), k2 ≠ k → (setKV l k v).lookup k2 = l.lookup k2 := by
  intro l k k2 v hne
  induction l with
  | nil =>
    simp only [setKV, List.lookup]
    rw [show (k2 == k) = false from beq_eq_false_iff_ne.mpr hne]
  | cons p rest ih =>
    obtain ⟨k0, v0⟩ := p
    rw [setKV]
    by_cases h : (k0 == k) = true
    · rw [if_pos h]
      have hk : k0 = k := beq_iff_eq.mp h
      subst hk
      simp only [List.lookup]
      rw [show (k2 == k0) = false from beq_eq_false_iff_ne.mpr hne]
    · rw [if_neg h]
      simp only [List.lookup]
      by_cases h2 : (k2 == k0) = true
      · rw [h2]
      · rw [show (k2 == k0) = false from by
          cases hb : (k2 == k0)
          · rfl
          · exact absurd hb h2]
        exact ih


theorem isNullJs_eq_true {x : JsValue} : isNullJs x = true ↔ x = .null := by
  cases x <;> simp [isNullJs]

theorem jsNullishAssign_spec (v : JsValue) (hv : objLike v = true) (k : String)
    (d : JsValue) :
    ∃ v2, jsNullishAssign v k d = .ok v2 ∧ objLike v2 = true ∧
      (∀ k2, k2 ≠ k → kvLookup v2 k2 = kvLookup v k2) ∧
      kvLookup v2 k = backfilledKey (kvLookup v k) d := by
  cases v with
  | null => simp [objLike] at hv
  | bool b => simp [objLike] at hv
  | num q => simp [objLike] at hv
  | str s => simp [objLike] at hv
  | arr es props =>
    cases hl : props.lookup k with
    | none =>
      refine ⟨.arr es (setKV props k d), ?_, rfl, ?_, ?_⟩
      · simp [jsNullishAssign, jsGetProp, jsSetProp, hl, Bind.bind, Except.bind]
      · intro k2 hk2
        simp only [kvLookup]
        exact lookup_setKV_ne props k k2 d hk2
      · simp only [kvLookup]
        rw [hl, lookup_setKV_self]
        rfl
    | some x =>
      by_cases hxn : isNullJs x = true
      · refine ⟨.arr es (setKV props k d), ?_, rfl, ?_, ?_⟩
        · simp [jsNullishAssign, jsGetProp, jsSetProp, hl, hxn, Bind.bind,
            Except.bind]
        · intro k2 hk2
          simp only [kvLookup]
          exact lookup_setKV_ne props k k2 d hk2
        · simp only [kvLookup]
          rw [hl, lookup_setKV_self]
          simp [backfilledKey, hxn]
      · refine ⟨.arr es props, ?_, rfl, fun k2 _ => rfl, ?_⟩
        · simp [jsNullishAssign, jsGetProp, hl, hxn, Bind.bind, Except.bind,
            pure, Except.pure]
        · simp only [kvLookup]
          rw [hl]
          simp [backfilledKey, hxn]
  | obj fields =>
    cases hl : fields.lookup k with
    | none =>
      refine ⟨.obj (setKV fields k d), ?_, rfl, ?_, ?_⟩
      · simp [jsNullishAssign, jsGetProp, jsSetProp, hl, Bind.bind, Except.bind]
      · intro k2 hk2
        simp only [kvLookup]
        exact lookup_setKV_ne fields k k2 d hk2
      · simp only [kvLookup]
        rw [hl, lookup_setKV_self]
        rfl
    | some x =>
      by_cases hxn : isNullJs x = true
      · refine ⟨.obj (setKV fields k d), ?_, rfl, ?_, ?_⟩
        · simp [jsNullishAssign, jsGetProp, jsSetProp, hl, hxn, Bind.bind,
            Except.bind]
        · intro k2 hk2
          simp only [kvLookup]
          exact lookup_setKV_ne fields k k2 d hk2
        · simp only [kvLookup]
          rw [hl, lookup_setKV_self]
          simp [backfilledKey, hxn]
      · refine ⟨.obj fields, ?_, rfl, fun k2 _ => rfl, ?_⟩
        · simp [jsNullishAssign, jsGetProp, hl, hxn, Bind.bind, Except.bind,
            pure, Except.pure]
        · simp only [kvLookup]
          rw [hl]
          simp [backfilledKey, hxn]


theorem jsHasKey_of_backfilled {v2 : JsValue} {k : String}
    {o : Option JsValue} {d : JsValue}
    (h : kvLookup v2 k = backfilledKey o d) : jsHasKey v2 k = true := by
  unfold jsHasKey
  rw [h]
  unfold backfilledKey
  cases o with
  | none => rfl
  | some x =>
    dsimp only
    split <;> rfl

theorem jsKeyNonNull_of_backfilled {v2 : JsValue} {k : String}
    {o : Option JsValue} {d : JsValue} (hd : isNullJs d = false)
    (h : kvLookup v2 k = backfilledKey o d) : jsKeyNonNull v2 k = true := by
  unfold jsKeyNonNull
  rw [h]
  unfold backfilledKey
  cases o with
  | none =>
    dsimp only
    cases d with
    | null => simp [isNullJs] at hd
    | bool b => rfl
    | num q => rfl
    | str t => rfl
    | arr es props => rfl
    | obj fields => rfl
  | some x =>
    dsimp only
    by_cases hx : isNullJs x = true
    · rw [if_pos hx]
      cases d with
      | null => simp [isNullJs] at hd
      | bool b => rfl
      | num q => rfl
      | str t => rfl
      | arr es props => rfl
      | obj fields => rfl
    · rw [if_neg hx]
      cases x with
      | null => simp [isNullJs] at hx
      | bool b => rfl
      | num q => rfl
      | str t => rfl
      | arr es props => rfl
      | obj fields => rfl

theorem backfillStats_spec (v : JsValue) (hv : objLike v = true) :
    ∃ v3, backfillStats v = .ok v3 ∧ objLike v3 = true ∧
      kvLookup v3 "best" = backfilledKey (kvLookup v "best") .null ∧
      kvLookup v3 "history" = backfilledKey (kvLookup v "history") (.arr [] []) ∧
      kvLookup v3 "perCategory"
        = backfilledKey (kvLookup v "perCategory") baselineJs ∧
      (∀ k2, k2 ≠ "best" → k2 ≠ "history" → k2 ≠ "perCategory" →
        kvLookup v3 k2 = kvLookup v k2) := by
  obtain ⟨v1, e1, o1, p1, l1⟩ := jsNullishAssign_spec v hv "best" .null
  obtain ⟨v2, e2, o2, p2, l2⟩ := jsNullishAssign_spec v1 o1 "history" (.arr [] [])
  obtain ⟨v3, e3, o3, p3, l3⟩ :=
    jsNullishAssign_spec v2 o2 "perCategory" baselineJs
  refine ⟨v3, ?_, o3, ?_, ?_, ?_, ?_⟩
  · simp [backfillStats, e1, e2, e3, Bind.bind, Except.bind]
  · rw [p3 "best" (by decide), p2 "best" (by decide), l1]
  · rw [p3 "history" (by decide), l2, p1 "history" (by decide)]
  · rw [l3, p2 "perCategory" (by decide), p1 "perCategory" (by decide)]
  · intro k2 h1 h2 h3
    rw [p3 k2 h3, p2 k2 h2, p1 k2 h1]

/-- C7 (amended): `loadStats` never throws — it is total by construction.
An absent or empty persisted value, a value `JSON.parse` rejects, and any
parsed value on which the key backfill throws (null or a primitive, i.e.
anything not object-like) all yield the seeded default; a value that parses
to an object (or array) is returned with each of `best`, `history` and
`perCategory` backfilled exactly when it was missing or null and every other
property untouched; and every possible result carries the three top-level
stats keys (`best`, plus non-null `history` and `perCategory`).  The
original claim that the result is always a well-formed stats record is
refuted by `loadStats_wellformed_counterexample`. -/
theorem loadStats_robust (parse : String → Option JsValue) (raw : Option String) :
    ((raw = none ∨ raw = some "") → loadStats parse raw = defaultStatsJs) ∧
    (∀ s, raw = some s → s ≠ "" → parse s = none →
        loadStats parse raw = defaultStatsJs) ∧
    (∀ s v, raw = some s → s ≠ "" → parse s = some v → objLike v = false →
        loadStats parse raw = defaultStatsJs) ∧
    (∀ s v, raw = some s → s ≠ "" → parse s = some v → objLike v = true →
        ∃ v3, backfillStats v = Except.ok v3 ∧ loadStats parse raw = v3 ∧
          objLike v3 = true ∧
          kvLookup v3 "best" = backfilledKey (kvLookup v "best") .null ∧
          kvLookup v3 "history"
            = backfilledKey (kvLookup v "history") (.arr [] []) ∧
          kvLookup v3 "perCategory"
            = backfilledKey (kvLookup v "perCategory") baselineJs ∧
          (∀ k2, k2 ≠ "best" → k2 ≠ "history" → k2 ≠ "perCategory" →
            kvLookup v3 k2 = kvLookup v k2)) ∧
    (jsHasKey (loadStats parse raw) "best" = true ∧
     jsKeyNonNull (loadStats parse raw) "history" = true ∧
     jsKeyNonNull (loadStats parse raw) "perCategory" = true) := by
  have hdef : jsHasKey defaultStatsJs "best" = true ∧
      jsKeyNonNull defaultStatsJs "history" = true ∧
      jsKeyNonNull defaultStatsJs "perCategory" = true := ⟨rfl, rfl, rfl⟩
  refine ⟨?_, ?_, ?_, ?_, ?_⟩
  · rintro (rfl | rfl)
    · rfl
    · rfl
  · rintro s rfl hne hp
    simp only [loadStats]
    rw [if_neg hne, hp]
  · rintro s v rfl hne hp hov
    simp only [loadStats]
    rw [if_neg hne, hp]
    dsimp only
    cases v with
    | null => rfl
    | bool b => rfl
    | num q => rfl
    | str s2 => rfl
    | arr es props => simp [objLike] at hov
    | obj fields => simp [objLike] at hov
  · rintro s v rfl hne hp hov
    obtain ⟨v3, e3, o3, b1, b2, b3, pres⟩ := backfillStats_spec v hov
    refine ⟨v3, e3, ?_, o3, b1, b2, b3, pres⟩
    simp only [loadStats]
    rw [if_neg hne, hp]
    dsimp only
    rw [e3]
  · cases raw with
    | none => exact hdef
    | some s =>
      simp only [loadStats]
      by_cases hse : s = ""
      · rw [if_pos hse]
        exact hdef
      · rw [if_neg hse]
        cases hp : parse s with
        | none => exact hdef
        | some v =>
          cases v with
          | null => exact hdef
          | bool b => exact hdef
          | num q => exact hdef
          | str s2 => exact hdef
          | arr es props =>
            obtain ⟨v3, e3, o3, b1, b2, b3, pres⟩ :=
              backfillStats_spec (.arr es props) rfl
            dsimp only
            rw [e3]
            exact ⟨jsHasKey_of_backfilled b1,
              jsKeyNonNull_of_backfilled (by rfl) b2,
              jsKeyNonNull_of_backfilled (by rfl) b3⟩
          | obj fields =>
            obtain ⟨v3, e3, o3, b1, b2, b3, pres⟩ :=
              backfillStats_spec (.obj fields) rfl
            dsimp only
            rw [e3]
            exact ⟨jsHasKey_of_backfilled b1,
              jsKeyNonNull_of_backfilled (by rfl) b2,
              jsKeyNonNull_of_backfilled (by rfl) b3⟩

/-- C7 counterexample: a parseable object with a numeric `history` field is
returned backfilled but is not a well-formed stats record (while the seeded
default is). -/
theorem loadStats_wellformed_counterexample :
    wellFormedStats (loadStats parseHistoryNum
        (some "\x7b\"history\": 5\x7d")) = false ∧
    wellFormedStats defaultStatsJs = true := by
  constructor
  · rfl
  · rfl


/-- C8: every item whose raw weight is non-numeric or `≤ 0` gets a positive
floored effective weight, and consequently every item of a `weightedPick`
input is reachable by some random draw. -/
theorem weightedPick_floor (items : List α) (weightFn : α → Option ℚ) :
    (∀ it : α, (weightFn it = none ∨ ∃ x, weightFn it = some x ∧ x ≤ 0) →
        1 / 10000 ≤ effWeight weightFn it ∧ 0 < effWeight weightFn it) ∧
    (∀ i (hi : i < items.length), ∃ r : ℚ, 0 ≤ r ∧ r < 1 ∧
        weightedPick items weightFn r = some (items.get ⟨i, hi⟩)) :=
  ⟨fun it _ => effWeight_pos weightFn it,
   fun i hi => weightedPick_reaches items weightFn i hi⟩

/-- C9: `weightedPick` yields `undefined` exactly on an empty `items`, and
returns a member of `items` otherwise. -/
theorem weightedPick_fail_iff (items : List α) (weightFn : α → Option ℚ)
    (r : ℚ) :
    (weightedPick items weightFn r = none ↔ items = []) ∧
    (items ≠ [] → ∃ x, x ∈ items ∧ weightedPick items weightFn r = some x) :=
  ⟨weightedPick_eq_none_iff items weightFn r,
   weightedPick_of_ne_nil items weightFn r⟩

theorem shuffleChoices_spec_witness :
    ((shuffleQuestionChoices (rsW 0) qW1).choices).Perm qW1.choices ∧
    0 ≤ (shuffleQuestionChoices (rsW 0) qW1).answerIndex ∧
    jsIndex (shuffleQuestionChoices (rsW 0) qW1).choices
        (shuffleQuestionChoices (rsW 0) qW1).answerIndex
      = jsIndex qW1.choices qW1.answerIndex ∧
    (jsIndex qW1.choices qW1.answerIndex).isSome = true :=
  shuffleChoices_spec (rsW 0) qW1 (by decide) (by decide)

theorem exam_gating_witness :
    step 0 sessionExamW .next = sessionExamW ∧
    (step 0 sessionPracW .next).index = sessionPracW.index + 1 :=
  ⟨(exam_gating 0 sessionExamW rfl (by decide)).1 ⟨rfl, rfl⟩,
   (exam_gating 0 sessionPracW rfl (by decide)).2 rfl⟩

theorem reanswer_guard_witness :
    step 0 (step 0 sessionPracW (.choose 0)) (.choose 1)
      = step 0 sessionPracW (.choose 0) ∧
    (((step 0 sessionPracW .next).answers.map (fun a => a.id)).Nodup) :=
  reanswer_guard 0 sessionPracW 0 1 .next (by decide)

theorem buildExam_quota_witness :
    (buildExamQuestions [qW1, qW2] rpW rsW 2 "all" statsW).length = 2 ∧
    buildExamQuestions [qW1, qW2] rpW rsW (-1) "all" statsW = [] ∧
    examPool [qW1, qW2] 2 "network" = [qW1, qW2] ∧
    ((buildExamQuestions [qW1] rpW rsW 2 "all" statsW).map
        (fun q => q.id)).Perm ([qW1].map (fun q => q.id)) :=
  ⟨(buildExam_quota [qW1, qW2] rpW rsW 2 "all" statsW (by decide)).2.2.1
      (by decide) (by decide),
   (buildExam_quota [qW1, qW2] rpW rsW (-1) "all" statsW (by decide)).1
      (by decide),
   (buildExam_quota [qW1, qW2] rpW rsW 2 "network" statsW (by decide)).2.1
      (by decide),
   (buildExam_quota [qW1] rpW rsW 2 "all" statsW (by decide)).2.2.2
      (by decide)⟩

theorem buildExam_nodup_witness :
    ((buildExamQuestions [qW1, qW2] rpW rsW 2 "smart" statsW).map
        (fun q => q.id)).Nodup :=
  buildExam_nodup [qW1, qW2] rpW rsW 2 "smart" statsW (by decide)

theorem loadStats_robust_witness :
    loadStats parseHistoryNum none = defaultStatsJs ∧
    loadStats (fun _ => some JsValue.null) (some "null") = defaultStatsJs ∧
    (∃ v3, backfillStats (JsValue.obj [("history", JsValue.num 5)])
        = Except.ok v3 ∧
      loadStats parseHistoryNum (some "\x7b\"history\": 5\x7d") = v3 ∧
      objLike v3 = true ∧
      kvLookup v3 "best"
        = backfilledKey (kvLookup (JsValue.obj [("history", JsValue.num 5)])
            "best") JsValue.null ∧
      kvLookup v3 "history"
        = backfilledKey (kvLookup (JsValue.obj [("history", JsValue.num 5)])
            "history") (JsValue.arr [] []) ∧
      kvLookup v3 "perCategory"
        = backfilledKey (kvLookup (JsValue.obj [("history", JsValue.num 5)])
            "perCategory") baselineJs ∧
      (∀ k2, k2 ≠ "best" → k2 ≠ "history" → k2 ≠ "perCategory" →
        kvLookup v3 k2
          = kvLookup (JsValue.obj [("history", JsValue.num 5)]) k2)) ∧
    jsHasKey (loadStats parseHistoryNum none) "best" = true :=
  ⟨(loadStats_robust parseHistoryNum none).1 (Or.inl rfl),
   (loadStats_robust (fun _ => some JsValue.null) (some "null")).2.2.1 "null"
      JsValue.null rfl (by decide) rfl rfl,
   (loadStats_robust parseHistoryNum (some "\x7b\"history\": 5\x7d")).2.2.2.1
      "\x7b\"history\": 5\x7d" (JsValue.obj [("history", JsValue.num 5)]) rfl
      (by decide) rfl rfl,
   (loadStats_robust parseHistoryNum none).2.2.2.2.1⟩

theorem weightedPick_floor_witness :
    (1 / 10000 ≤ effWeight (fun _ : Question => some (-1)) qW1 ∧
      0 < effWeight (fun _ : Question => some (-1)) qW1) ∧
    (∃ r : ℚ, 0 ≤ r ∧ r < 1 ∧
      weightedPick [qW1, qW2] (fun _ : Question => some (-1)) r = some qW2) :=
  ⟨(weightedPick_floor [qW1, qW2] (fun _ : Question => some (-1))).1 qW1
      (Or.inr ⟨-1, rfl, by norm_num⟩),
   (weightedPick_floor [qW1, qW2] (fun _ : Question => some (-1))).2 1
      (by decide)⟩

theorem weightedPick_fail_iff_witness :
    (weightedPick [qW1] (fun _ : Question => some 1) 0 = none ↔ [qW1] = []) ∧
    (∃ x, x ∈ [qW1] ∧ weightedPick [qW1] (fun _ : Question => some 1) 0 = some x) :=
  ⟨(weightedPick_fail_iff [qW1] (fun _ : Question => some 1) 0).1,
   (weightedPick_fail_iff [qW1] (fun _ : Question => some 1) 0).2 (by simp)⟩

theorem total_is_requested_witness :
    (runTrace 0 (startExam [qW1] rpW rsW 0 .exam 5 "all" statsW) [.next]).total
      = 5 ∧
    (mkAttempt 0 (runTrace 0 (startExam [qW1] rpW rsW 0 .exam 5 "all" statsW)
        [.next])).total = 5 ∧
    0 ≤ (mkAttempt 0 (runTrace 0 (startExam [qW1] rpW rsW 0 .exam 5 "all"
        statsW) [.next])).score ∧
    (mkAttempt 0 (runTrace 0 (startExam [qW1] rpW rsW 0 .exam 5 "all" statsW)
        [.next])).score ≤ 5 :=
  ⟨(total_is_requested [qW1] rpW rsW 0 .exam 5 "all" statsW [.next]
      (by decide)).1,
   (total_is_requested [qW1] rpW rsW 0 .exam 5 "all" statsW [.next]
      (by decide)).2.2.1,
   (total_is_requested [qW1] rpW rsW 0 .exam 5 "all" statsW [.next]
      (by decide)).2.2.2.1,
   (total_is_requested [qW1] rpW rsW 0 .exam 5 "all" statsW [.next]
      (by decide)).2.2.2.2⟩

end CertPrep
